import Mathlib

/-!
# Meu bloco: note store of `src/js/app.js`

A shallow embedding of the note-taking script `src/js/app.js`.

Modelling decisions, all read off the source:

* A note is a JavaScript object. Its five properties `id`, `title`, `content`,
  `createdAt`, `updatedAt` are each either absent (`none`, JavaScript `undefined`)
  or a string. Notes created by the script carry all five; notes read back from
  `localStorage` by `load` are taken as they are, so a property may be absent.
* `state.activeId` is `null`, `undefined` or a string (`IdVal`).
* `localStorage` under `STORAGE_KEY` is the field `storage` of the state, and
  `writes` counts the calls of `localStorage.setItem`.
* `uid()` and `nowISO()` read the random generator and the clock; their results
  are arguments of the operations that call them. The answers of `prompt` and
  `confirm` and the values of the editor fields are arguments as well.
* `String.prototype.localeCompare` and `String.prototype.toLowerCase` are functions of
  the JavaScript library, not of the script: they are arguments (`lc`, `lower`) of the
  operations that call them. What is proved of the sort assumes of `localeCompare` only
  that it is a consistent comparator (`Collates`); nothing is assumed of `toLowerCase`.
* `Array.prototype.sort` is a stable sort.
* A stored note with a property of another kind than a string (a number, say) is outside
  the model: on such an `updatedAt` the comparator of `sortNotes` can throw.
* The DOM is not modelled: `renderList` yields the sequence of notes it lists.
* The browser timer behind `state.saveTimer` is `Timer.idle` or `Timer.pending`.
-/

namespace MeuBloco

/-! ## Strings -/

/-- White space and line terminators removed by `String.prototype.trim`. -/
def isTrimChar (c : Char) : Bool :=
  let n := c.toNat
  n = 9 || n = 10 || n = 11 || n = 12 || n = 13 || n = 32 || n = 160 || n = 5760 ||
    (8192 ≤ n && n ≤ 8202) || n = 8232 || n = 8233 || n = 8239 || n = 8287 ||
    n = 12288 || n = 65279

/-- Characters left after `trim()`. -/
def trimChars (l : List Char) : List Char :=
  ((l.dropWhile isTrimChar).reverse.dropWhile isTrimChar).reverse

/-- JavaScript `s.trim()`. -/
def trim (s : String) : String := ⟨trimChars s.data⟩

/-- The characters `term` stand at the start of `hay`. -/
def startsWith : List Char → List Char → Bool
  | _, [] => true
  | [], _ :: _ => false
  | h :: hs, t :: ts => decide (h = t) && startsWith hs ts

/-- JavaScript `hay.includes(term)`: `term` stands at some position of `hay`. -/
def includesChars : List Char → List Char → Bool
  | [], term => startsWith [] term
  | c :: cs, term => startsWith (c :: cs) term || includesChars cs term

/-- JavaScript `hay.includes(term)`. -/
def includes (hay term : String) : Bool := includesChars hay.data term.data

/-- The type of `String.prototype.localeCompare`: `lc a b` is `a.localeCompare(b)`. -/
abbrev Compare := String → String → Int

/-- The type of `String.prototype.toLowerCase`. -/
abbrev Lower := String → String

/-- The comparator `lc` is consistent, as `Array.prototype.sort` asks of a comparator and as a
collation is: swapping the arguments swaps the sign, and "not after" is transitive. -/
structure Collates (lc : Compare) : Prop where
  swap : ∀ a b, 0 < lc a b ↔ lc b a < 0
  trans : ∀ a b c, lc a b ≤ 0 → lc b c ≤ 0 → lc a c ≤ 0

/-- The placeholder title. -/
def placeholder : String := "Sem título"

/-! ## Data model -/

/-- A note object with string properties; an absent property is `none`. -/
structure Note where
  id : Option String
  title : Option String
  content : Option String
  createdAt : Option String
  updatedAt : Option String
deriving DecidableEq, Repr

/-- The values `state.activeId` takes. -/
inductive IdVal where
  | null
  | undefined
  | str (s : String)
deriving DecidableEq, Repr

/-- The value of the expression `n.id`. -/
def Note.idVal (n : Note) : IdVal :=
  match n.id with
  | none => IdVal.undefined
  | some s => IdVal.str s

/-- A property of the parsed record as `load` tests it: absent, of the type tested for
(`ok`), or of another type (`other`). -/
inductive Field (α : Type) where
  | absent
  | other
  | ok (a : α)
deriving DecidableEq, Repr

/-- What `localStorage.getItem(STORAGE_KEY)` holds.
* `missing`: `null` or the empty string, so `!raw` holds;
* `garbage`: a text on which `JSON.parse(raw)` or the read `parsed.notes` throws
  (not JSON, or the JSON `null`);
* `value notes activeId`: any other JSON text, seen through the two properties
  `load` reads. -/
inductive Stored where
  | missing
  | garbage
  | value (notes : Field (List Note)) (activeId : Field String)
deriving DecidableEq, Repr

/-- State of the browser timer whose handle is `state.saveTimer`. -/
inductive Timer where
  | idle
  | pending
deriving DecidableEq, Repr

/-- The variable `state` together with the storage it is persisted to. -/
structure State where
  notes : List Note
  activeId : IdVal
  search : String
  saveTimer : Timer
  storage : Stored
  writes : Nat
deriving DecidableEq, Repr

/-- The state before `load()`: the literal at the top of the script, over a given storage. -/
def initial (stored : Stored) : State :=
  { notes := [], activeId := IdVal.null, search := "", saveTimer := Timer.idle,
    storage := stored, writes := 0 }

/-! ## Operations -/

/-- The function `load`. -/
def load (s : State) : State :=
  match s.storage with
  | Stored.missing => s
  | Stored.garbage => s
  | Stored.value notes activeId =>
    let s1 := match notes with
      | Field.ok ns => { s with notes := ns }
      | _ => s
    match activeId with
    | Field.ok a => { s1 with activeId := IdVal.str a }
    | _ => s1

/-- The text `JSON.stringify` gives for the record of `notes` and `activeId`. -/
def serialize (notes : List Note) (activeId : IdVal) : Stored :=
  Stored.value (Field.ok notes)
    (match activeId with
     | IdVal.str a => Field.ok a
     | IdVal.null => Field.other
     | IdVal.undefined => Field.absent)

/-- The function `persist`. -/
def persist (s : State) : State :=
  { s with storage := serialize s.notes s.activeId, writes := s.writes + 1 }

/-- The test `n.id === state.activeId`. -/
def isActive (activeId : IdVal) (n : Note) : Bool := decide (n.idVal = activeId)

/-- The function `getActiveNote`. -/
def getActiveNote (s : State) : Option Note := s.notes.find? (isActive s.activeId)

/-- The sort key of a note: the value of `n.updatedAt || ""`. -/
def updatedKey (n : Note) : String :=
  match n.updatedAt with
  | none => ""
  | some u => u

/-- The comparator of `sortNotes` does not put `b` before `a`:
`(b.updatedAt || "").localeCompare(a.updatedAt || "")` is not positive. -/
def newerEq (lc : Compare) (a b : Note) : Prop := lc (updatedKey b) (updatedKey a) ≤ 0

instance (lc : Compare) : DecidableRel (newerEq lc) := fun a b => by
  unfold newerEq; infer_instance

/-- The function `sortNotes`, on the array: the stable sort by the comparator, which puts
`a` before `b` when `(b.updatedAt || "").localeCompare(a.updatedAt || "")` is negative and
keeps the order of two notes for which it is zero. -/
def sortNotes (lc : Compare) (notes : List Note) : List Note :=
  notes.insertionSort (newerEq lc)

/-- The interpolation of a property in a template literal. -/
def interpolate (v : Option String) : String :=
  match v with
  | none => "undefined"
  | some x => x

/-- The search term of `renderList`: `state.search.trim().toLowerCase()`. -/
def searchTerm (lower : Lower) (search : String) : String := lower (trim search)

/-- The text searched for a note. -/
def haystack (lower : Lower) (n : Note) : String :=
  lower (interpolate n.title ++ "\n" ++ interpolate n.content)

/-- The callback of the `filter` in `renderList`. -/
def keeps (lower : Lower) (term : String) (n : Note) : Bool :=
  if term = "" then true else includes (haystack lower n) term

/-- The function `renderList`: the notes it lists, in the order it lists them. -/
def renderList (lower : Lower) (s : State) : List Note :=
  s.notes.filter (keeps lower (searchTerm lower s.search))

/-- The function `render`: `sortNotes()`, then the two DOM renderers. -/
def render (lc : Compare) (s : State) : State := { s with notes := sortNotes lc s.notes }

/-- The function `createNote`; `id` is the result of `uid()`, `t1` and `t2` the results of
the two calls of `nowISO()`. -/
def createNote (lc : Compare) (s : State) (id t1 t2 : String) : State :=
  let note : Note :=
    { id := some id, title := some placeholder, content := some "",
      createdAt := some t1, updatedAt := some t2 }
  render lc (persist { s with notes := note :: s.notes, activeId := IdVal.str id })

/-- The value of `state.notes[0]?.id ?? null`. -/
def firstId (notes : List Note) : IdVal :=
  match notes with
  | [] => IdVal.null
  | n :: _ =>
    match n.id with
    | none => IdVal.null
    | some i => IdVal.str i

/-- The function `deleteActive`; `ok` is the answer of `confirm`. -/
def deleteActive (lc : Compare) (s : State) (ok : Bool) : State :=
  match getActiveNote s with
  | none => s
  | some note =>
    if !ok then s
    else
      let notes := s.notes.filter (fun n => decide (n.id ≠ note.id))
      render lc (persist { s with notes := notes, activeId := firstId notes })

/-- An assignment to properties of the first note that satisfies `p`, in place in the array. -/
def mutateFirst (p : Note → Bool) (f : Note → Note) : List Note → List Note
  | [] => []
  | n :: ns => if p n then f n :: ns else n :: mutateFirst p f ns

/-- The title `renameActive` stores for the answer `newTitle` of the prompt. -/
def renamedTitle (newTitle : String) : String :=
  let trimmed := trim newTitle
  if trimmed.length ≠ 0 then trimmed else placeholder

/-- The function `renameActive`; `answer` is the result of `prompt` (`none` for `null`),
`now` the result of `nowISO()`. -/
def renameActive (lc : Compare) (s : State) (answer : Option String) (now : String) : State :=
  match getActiveNote s with
  | none => s
  | some _ =>
    match answer with
    | none => s
    | some newTitle =>
      let notes := mutateFirst (isActive s.activeId)
        (fun n => { n with title := some (renamedTitle newTitle), updatedAt := some now }) s.notes
      render lc (persist { s with notes := notes })

/-- The function `setActive`. -/
def setActive (lc : Compare) (s : State) (id : IdVal) : State :=
  render lc (persist { s with activeId := id })

/-- The title `saveActiveFromUI` stores: `(els.title.value || "").trim() || "Sem título"`. -/
def savedTitle (title : String) : String :=
  if trim title = "" then placeholder else trim title

/-- The function `saveActiveFromUI`; `title` and `content` are the values of the two
editor fields, `now` the result of `nowISO()`. It calls `renderList`, not `render`. -/
def saveActiveFromUI (s : State) (title content now : String) : State :=
  match getActiveNote s with
  | none => s
  | some _ =>
    let notes := mutateFirst (isActive s.activeId)
      (fun n => { n with title := some (savedTitle title), content := some content,
                         updatedAt := some now }) s.notes
    persist { s with notes := notes }

/-- The function `scheduleSave`: the pending timer is cleared and a new one is armed. -/
def scheduleSave (s : State) : State := { s with saveTimer := Timer.pending }

/-- The armed timer expires: its callback runs `saveActiveFromUI` and the timer is spent.
Without an armed timer nothing happens. -/
def timerFires (s : State) (title content now : String) : State :=
  match s.saveTimer with
  | Timer.idle => s
  | Timer.pending => saveActiveFromUI { s with saveTimer := Timer.idle } title content now

/-- The save shortcut of the `keydown` listener: `saveActiveFromUI()`. -/
def saveNow (s : State) (title content now : String) : State :=
  saveActiveFromUI s title content now

/-- The `input` listener of the search field. -/
def setSearch (s : State) (term : String) : State := { s with search := term }

/-- The content of the initial note. -/
def welcomeContent : String :=
  "Escreva aqui suas anotações.\n\nDicas:\n- Ctrl+N cria uma nota\n- Ctrl+S salva\n- Ctrl+F foca a busca"

/-- The value of `state.notes[0].id`. -/
def firstNoteId (notes : List Note) : IdVal :=
  match notes with
  | [] => IdVal.undefined
  | n :: _ => n.idVal

/-- The seeding step of the boot block; `id` is the result of `uid()`, `t1` and `t2` the
results of the two calls of `nowISO()`. -/
def seed (s : State) (id t1 t2 : String) : State :=
  if s.notes.length = 0 then
    let notes : List Note :=
      [{ id := some id, title := some "Bem-vindo", content := some welcomeContent,
         createdAt := some t1, updatedAt := some t2 }]
    persist { s with notes := notes, activeId := firstNoteId notes }
  else s

/-- The boot block: `load()`, the seeding step, `render()`. -/
def boot (lc : Compare) (stored : Stored) (id t1 t2 : String) : State :=
  render lc (seed (load (initial stored)) id t1 t2)

/-! ## Reachable states -/

/-- The array `load` takes from the stored value: the `notes` property when it is an
array, no note otherwise. -/
def storedNotes (stored : Stored) : List Note :=
  match stored with
  | Stored.value (Field.ok ns) _ => ns
  | _ => []

/-- States the script reaches: the boot block, then any sequence of calls of the
listeners. Every `uid()` of `createNote` is taken to be new to the collection. -/
inductive Reachable (lc : Compare) (stored : Stored) : State → Prop where
  | init (id t1 t2 : String) : Reachable lc stored (boot lc stored id t1 t2)
  | create {s : State} (id t1 t2 : String) : Reachable lc stored s →
      some id ∉ s.notes.map Note.id → Reachable lc stored (createNote lc s id t1 t2)
  | rename {s : State} (answer : Option String) (now : String) : Reachable lc stored s →
      Reachable lc stored (renameActive lc s answer now)
  | select {s : State} (id : IdVal) : Reachable lc stored s →
      Reachable lc stored (setActive lc s id)
  | save {s : State} (title content now : String) : Reachable lc stored s →
      Reachable lc stored (saveActiveFromUI s title content now)
  | delete {s : State} (ok : Bool) : Reachable lc stored s →
      Reachable lc stored (deleteActive lc s ok)
  | search {s : State} (term : String) : Reachable lc stored s →
      Reachable lc stored (setSearch s term)
  | edit {s : State} : Reachable lc stored s → Reachable lc stored (scheduleSave s)
  | fire {s : State} (title content now : String) : Reachable lc stored s →
      Reachable lc stored (timerFires s title content now)

/-! ## Predicates of the specification -/

/-- The filter as the specification words it: the term is empty, or it occurs in the
lower-cased title, or it occurs in the lower-cased content. -/
def keepsPerField (lower : Lower) (term : String) (n : Note) : Bool :=
  decide (term = "") || includes (lower (interpolate n.title)) term ||
    includes (lower (interpolate n.content)) term

/-- A note with all five properties present. -/
def Note.complete (n : Note) : Bool :=
  n.id.isSome && n.title.isSome && n.content.isSome && n.createdAt.isSome && n.updatedAt.isSome

/-- The stored value parses into the shape of the persistence format: `notes` is a sequence
of notes with five string properties, `activeId` is a string or absent. -/
def wellShaped (stored : Stored) : Bool :=
  match stored with
  | Stored.value (Field.ok ns) activeId => ns.all Note.complete && decide (activeId ≠ Field.other)
  | _ => false

/-- The initial note of the boot block. -/
def welcomeNote (id t1 t2 : String) : Note :=
  { id := some id, title := some "Bem-vindo", content := some welcomeContent,
    createdAt := some t1, updatedAt := some t2 }

/-! ## Sample data -/

/-- Order of two strings by code points: `leChars a b` when `a` sorts before or with `b`. -/
def leChars : List Char → List Char → Bool
  | [], _ => true
  | _ :: _, [] => false
  | a :: as, b :: bs => decide (a.toNat < b.toNat) || (decide (a.toNat = b.toNat) && leChars as bs)

/-- A comparator for the sample runs: the comparison by code points. The sample runs compare
timestamps in the format of `toISOString` only, which `localeCompare` puts in this order. -/
def isoCompare : Compare := fun a b =>
  if leChars a.data b.data then (if leChars b.data a.data then 0 else -1) else 1

/-- A lower-casing for the sample runs: the letters A to Z are lowered, as `toLowerCase`
does; the sample runs lower ASCII text only. -/
def asciiLower : Lower := fun s => ⟨s.data.map Char.toLower⟩

/-- A state after boot on an empty storage. -/
def sample0 : State :=
  boot isoCompare Stored.missing "n_1" "2026-01-01T10:00:00.000Z" "2026-01-01T10:00:00.000Z"

/-- A second note is created. -/
def sample1 : State :=
  createNote isoCompare sample0 "n_2" "2026-01-01T10:05:00.000Z" "2026-01-01T10:05:00.001Z"

/-- The first note is selected again. -/
def sample2 : State := setActive isoCompare sample1 (IdVal.str "n_1")

/-- The first note is edited and saved. -/
def sample3 : State := saveActiveFromUI sample2 "Bem-vindo" "oi" "2026-01-01T10:06:00.000Z"

/-- A note with the id "a". -/
def dupA1 : Note :=
  { id := some "a", title := some "A", content := some "x",
    createdAt := some "2026-01-01T08:00:00.000Z", updatedAt := some "2026-01-03T08:00:00.000Z" }

/-- Another note with the id "a". -/
def dupA2 : Note :=
  { id := some "a", title := some "A bis", content := some "y",
    createdAt := some "2026-01-01T09:00:00.000Z", updatedAt := some "2026-01-02T08:00:00.000Z" }

/-- A note with the id "b". -/
def dupB : Note :=
  { id := some "b", title := some "B", content := some "z",
    createdAt := some "2026-01-01T07:00:00.000Z", updatedAt := some "2026-01-01T07:00:00.000Z" }

/-- A stored record in which two notes share the id "a". -/
def dupStored : Stored := Stored.value (Field.ok [dupA1, dupA2, dupB]) (Field.ok "a")

/-- The state after boot on `dupStored`. -/
def dupState : State :=
  boot isoCompare dupStored "n_9" "2026-01-04T08:00:00.000Z" "2026-01-04T08:00:00.000Z"

/-- A stored record whose only note has a title and nothing else. -/
def bareStored : Stored :=
  Stored.value (Field.ok [{ id := none, title := some "x", content := none,
                            createdAt := none, updatedAt := none }]) Field.absent

/-- A note with the title "a" and the content "b". -/
def noteAB : Note :=
  { id := some "n_1", title := some "a", content := some "b",
    createdAt := some "2026-01-01T10:00:00.000Z", updatedAt := some "2026-01-01T10:00:00.000Z" }

/-- A collection that holds `noteAB` alone, with a search term typed in. -/
def searching (term : String) : State :=
  { notes := [noteAB], activeId := IdVal.str "n_1", search := term, saveTimer := Timer.idle,
    storage := serialize [noteAB] (IdVal.str "n_1"), writes := 1 }

/-- The state after boot on an empty storage and an edit: the autosave timer is armed. -/
def samplePending : State := scheduleSave sample0

/-! ## The order of the sort -/

theorem leChars_total : ∀ a b : List Char, leChars a b = true ∨ leChars b a = true
  | [], _ => Or.inl (by simp [leChars])
  | _ :: _, [] => Or.inr (by simp [leChars])
  | a :: as, b :: bs => by
    rcases leChars_total as bs with h | h
    · rcases Nat.lt_trichotomy a.toNat b.toNat with h1 | h1 | h1
      · left; simp [leChars, h1]
      · left; simp [leChars, h1, h]
      · right; simp [leChars, h1]
    · rcases Nat.lt_trichotomy a.toNat b.toNat with h1 | h1 | h1
      · left; simp [leChars, h1]
      · right; simp [leChars, h1, h]
      · right; simp [leChars, h1]

theorem leChars_trans : ∀ a b c : List Char,
    leChars a b = true → leChars b c = true → leChars a c = true
  | [], _, _ => fun _ _ => by simp [leChars]
  | _ :: _, [], _ => fun h _ => by simp [leChars] at h
  | _ :: _, _ :: _, [] => fun _ h => by simp [leChars] at h
  | a :: as, b :: bs, c :: cs => fun h1 h2 => by
    simp only [leChars, Bool.or_eq_true, Bool.and_eq_true, decide_eq_true_eq] at h1 h2 ⊢
    rcases h1 with h1 | ⟨e1, h1⟩
    · rcases h2 with h2 | ⟨e2, _⟩
      · left; omega
      · left; omega
    · rcases h2 with h2 | ⟨e2, h2⟩
      · left; omega
      · right; exact ⟨by omega, leChars_trans as bs cs h1 h2⟩

theorem isoCompare_le_iff (a b : String) :
    isoCompare a b ≤ 0 ↔ leChars a.data b.data = true := by
  unfold isoCompare
  by_cases h1 : leChars a.data b.data = true
  · by_cases h2 : leChars b.data a.data = true
    · simp [h1, h2]
    · simp [h1, h2]
  · simp [h1]

theorem isoCompare_pos_iff (a b : String) :
    0 < isoCompare a b ↔ ¬ leChars a.data b.data = true := by
  rw [← isoCompare_le_iff]
  omega

theorem isoCompare_neg_iff (a b : String) :
    isoCompare a b < 0 ↔ ¬ leChars b.data a.data = true := by
  unfold isoCompare
  by_cases h1 : leChars a.data b.data = true
  · by_cases h2 : leChars b.data a.data = true
    · simp [h1, h2]
    · simp [h1, h2]
  · have h2 : leChars b.data a.data = true := (leChars_total a.data b.data).resolve_left h1
    simp [h1, h2]

/-- The comparator of the sample runs is consistent. -/
theorem isoCompare_collates : Collates isoCompare where
  swap a b := by rw [isoCompare_pos_iff, isoCompare_neg_iff]
  trans a b c hab hbc := by
    rw [isoCompare_le_iff] at hab hbc ⊢
    exact leChars_trans a.data b.data c.data hab hbc

theorem collates_total {lc : Compare} (h : Collates lc) (a b : String) :
    lc a b ≤ 0 ∨ lc b a ≤ 0 := by
  by_cases hab : lc a b ≤ 0
  · exact Or.inl hab
  · exact Or.inr (le_of_lt ((h.swap a b).mp (not_le.mp hab)))

theorem newerEq_total {lc : Compare} (h : Collates lc) : IsTotal Note (newerEq lc) :=
  ⟨fun a b => collates_total h (updatedKey b) (updatedKey a)⟩

theorem newerEq_trans {lc : Compare} (h : Collates lc) : IsTrans Note (newerEq lc) :=
  ⟨fun a b c hab hbc => h.trans (updatedKey c) (updatedKey b) (updatedKey a) hbc hab⟩

theorem newerEq_refl {lc : Compare} (h : Collates lc) (a : Note) : newerEq lc a a :=
  (collates_total h (updatedKey a) (updatedKey a)).elim id id

theorem sortNotes_sorted {lc : Compare} (h : Collates lc) (xs : List Note) :
    (sortNotes lc xs).Sorted (newerEq lc) :=
  haveI := newerEq_total h
  haveI := newerEq_trans h
  List.sorted_insertionSort (newerEq lc) xs

theorem sortNotes_perm (lc : Compare) (xs : List Note) : (sortNotes lc xs).Perm xs :=
  List.perm_insertionSort (newerEq lc) xs

theorem sortNotes_eq_self {lc : Compare} {xs : List Note} (h : xs.Sorted (newerEq lc)) :
    sortNotes lc xs = xs :=
  List.Sorted.insertionSort_eq h

theorem mem_sortNotes {lc : Compare} {xs : List Note} {n : Note} :
    n ∈ sortNotes lc xs ↔ n ∈ xs :=
  (sortNotes_perm lc xs).mem_iff

/-- The sort is stable: notes that already stand in order keep their relative order. -/
theorem sortNotes_stable {lc : Compare} {xs c : List Note} (hr : c.Pairwise (newerEq lc))
    (hc : c.Sublist xs) : c.Sublist (sortNotes lc xs) :=
  List.sublist_insertionSort hr hc

/-! ## Lemmas on the operations -/

theorem idVal_inj {a b : Note} : a.idVal = b.idVal ↔ a.id = b.id := by
  unfold Note.idVal
  cases ha : a.id <;> cases hb : b.id <;> simp

theorem isActive_iff {a : IdVal} {n : Note} : isActive a n = true ↔ n.idVal = a := by
  simp [isActive]

theorem getActiveNote_some {s : State} {n : Note} (h : getActiveNote s = some n) :
    n ∈ s.notes ∧ n.idVal = s.activeId := by
  unfold getActiveNote at h
  exact ⟨List.mem_of_find?_eq_some h, isActive_iff.mp (List.find?_some h)⟩

theorem mutateFirst_map_id (p : Note → Bool) (f : Note → Note) (hf : ∀ n, (f n).id = n.id) :
    ∀ l : List Note, (mutateFirst p f l).map Note.id = l.map Note.id
  | [] => rfl
  | n :: ns => by
    unfold mutateFirst
    split
    · simp [hf]
    · simp [mutateFirst_map_id p f hf ns]

theorem mutateFirst_map_createdAt (p : Note → Bool) (f : Note → Note)
    (hf : ∀ n, (f n).createdAt = n.createdAt) :
    ∀ l : List Note, (mutateFirst p f l).map Note.createdAt = l.map Note.createdAt
  | [] => rfl
  | n :: ns => by
    unfold mutateFirst
    split
    · simp [hf]
    · simp [mutateFirst_map_createdAt p f hf ns]

theorem mutateFirst_eq_set (p : Note → Bool) (f : Note → Note) :
    ∀ (l : List Note) (n : Note), l.find? p = some n →
      ∃ k, l[k]? = some n ∧ mutateFirst p f l = l.set k (f n)
  | [], n => by simp
  | m :: ms, n => by
    intro h
    by_cases hp : p m = true
    · simp [List.find?, hp] at h
      subst h
      exact ⟨0, by simp, by simp [mutateFirst, hp]⟩
    · simp [List.find?, hp] at h
      obtain ⟨k, hk, hset⟩ := mutateFirst_eq_set p f ms n h
      exact ⟨k + 1, by simpa using hk, by simp [mutateFirst, hp, hset]⟩

theorem mutateFirst_none (p : Note → Bool) (f : Note → Note) :
    ∀ (l : List Note), l.find? p = none → mutateFirst p f l = l
  | [] => by simp [mutateFirst]
  | m :: ms => by
    intro h
    by_cases hp : p m = true
    · simp [List.find?, hp] at h
    · simp [List.find?, hp] at h
      simp [mutateFirst, hp, mutateFirst_none p f ms (by simpa using h)]

theorem filter_mutateFirst (a : IdVal) (f : Note → Note) (hf : ∀ n, (f n).id = n.id) :
    ∀ l : List Note, (mutateFirst (isActive a) f l).filter (fun n => !isActive a n) =
      l.filter (fun n => !isActive a n)
  | [] => rfl
  | n :: ns => by
    have hfa : isActive a (f n) = isActive a n := by
      simp [isActive, Note.idVal, hf]
    by_cases hp : isActive a n = true
    · simp [mutateFirst, hp, hfa]
    · simp [mutateFirst, hp, filter_mutateFirst a f hf ns]

theorem filter_ne_id_eq (a : IdVal) (note : Note) (h : note.idVal = a) (l : List Note) :
    l.filter (fun n => decide (n.id ≠ note.id)) = l.filter (fun n => !isActive a n) := by
  apply List.filter_congr
  intro n _
  subst h
  simp [isActive, idVal_inj]

theorem filter_ne_id_eq_erase : ∀ (l : List Note) (n : Note), (l.map Note.id).Nodup → n ∈ l →
    l.filter (fun m => decide (m.id ≠ n.id)) = l.erase n
  | [], n => by simp
  | m :: ms, n => by
    intro hnd hmem
    rw [List.map_cons, List.nodup_cons] at hnd
    by_cases hmn : m = n
    · subst hmn
      have : ms.filter (fun k => decide (k.id ≠ m.id)) = ms := by
        apply List.filter_eq_self.mpr
        intro k hk
        have : k.id ≠ m.id := fun e => hnd.1 (e ▸ List.mem_map_of_mem Note.id hk)
        simpa using this
      rw [List.filter_cons, if_neg (by simp), this, List.erase_cons_head]
    · have hn : n ∈ ms := by
        rcases List.mem_cons.mp hmem with h | h
        · exact absurd h.symm hmn
        · exact h
      have hid : m.id ≠ n.id := fun e => hnd.1 (e ▸ List.mem_map_of_mem Note.id hn)
      have ih := filter_ne_id_eq_erase ms n hnd.2 hn
      rw [List.erase_cons_tail (by simpa using hmn), List.filter_cons,
        if_pos (by simpa using hid), ih]

theorem render_rest_sorted {lc : Compare} (hlc : Collates lc) (s : State) :
    ((render lc s).notes.filter (fun n => !isActive (render lc s).activeId n)).Sorted
      (newerEq lc) :=
  List.Sorted.filter _ (sortNotes_sorted hlc s.notes)

theorem saveActiveFromUI_rest (s : State) (title content now : String) :
    (saveActiveFromUI s title content now).notes.filter
        (fun n => !isActive (saveActiveFromUI s title content now).activeId n) =
      s.notes.filter (fun n => !isActive s.activeId n) := by
  unfold saveActiveFromUI
  split
  · rfl
  · simp only [persist]
    refine filter_mutateFirst s.activeId _ ?_ s.notes
    intro _; rfl

theorem reachable_rest_sorted {lc : Compare} (hlc : Collates lc) {stored : Stored} {s : State}
    (h : Reachable lc stored s) :
    (s.notes.filter (fun n => !isActive s.activeId n)).Sorted (newerEq lc) := by
  induction h with
  | init id t1 t2 => exact render_rest_sorted hlc _
  | create id t1 t2 _ _ _ => exact render_rest_sorted hlc _
  | @rename s answer now _ ih =>
    unfold renameActive
    split
    · exact ih
    · split
      · exact ih
      · exact render_rest_sorted hlc _
  | select id _ _ => exact render_rest_sorted hlc _
  | save title content now _ ih =>
    rw [saveActiveFromUI_rest]
    exact ih
  | @delete s ok _ ih =>
    unfold deleteActive
    split
    · exact ih
    · split
      · exact ih
      · exact render_rest_sorted hlc _
  | search term _ ih => exact ih
  | edit _ ih => exact ih
  | @fire s title content now _ ih =>
    unfold timerFires
    split
    · exact ih
    · rw [saveActiveFromUI_rest]
      exact ih

theorem boot_notes_perm (lc : Compare) (stored : Stored) (id t1 t2 : String) :
    (boot lc stored id t1 t2).notes.Perm
      (if storedNotes stored = [] then [welcomeNote id t1 t2] else storedNotes stored) := by
  have hload : (load (initial stored)).notes = storedNotes stored := by
    unfold load initial storedNotes
    cases stored with
    | missing => rfl
    | garbage => rfl
    | value notes activeId => cases notes <;> cases activeId <;> rfl
  unfold boot render
  refine (sortNotes_perm lc _).trans ?_
  unfold seed
  by_cases he : storedNotes stored = []
  · simp [hload, he, persist, welcomeNote]
  · have : ¬ (storedNotes stored).length = 0 := by simpa using he
    simp [hload, he, this]

/-- Every property of the reachable collection that a permutation, a sublist, a fresh
note in front or a change of title, content and `updatedAt` keeps is an invariant. -/
theorem reachable_ids {lc : Compare} {stored : Stored} {s : State}
    (P : List (Option String) → Prop)
    (hperm : ∀ l l', l.Perm l' → P l' → P l)
    (hsub : ∀ l l', l.Sublist l' → P l' → P l)
    (hcons : ∀ (i : String) l, some i ∉ l → P l → P (some i :: l))
    (hboot : ∀ id t1 t2, P ((boot lc stored id t1 t2).notes.map Note.id))
    (h : Reachable lc stored s) : P (s.notes.map Note.id) := by
  induction h with
  | init id t1 t2 => exact hboot id t1 t2
  | @create s id t1 t2 _ hfresh ih =>
    have : ((createNote lc s id t1 t2).notes.map Note.id).Perm
        (some id :: s.notes.map Note.id) := by
      simpa [createNote, render, persist] using (sortNotes_perm lc _).map Note.id
    exact hperm _ _ this (hcons id _ hfresh ih)
  | @rename s answer now _ ih =>
    unfold renameActive
    split
    · exact ih
    · split
      · exact ih
      · refine hperm _ _ ((sortNotes_perm lc _).map Note.id) ?_
        simp only [persist]
        rw [mutateFirst_map_id _ _ ?_]
        · exact ih
        · intro _; rfl
  | @select s id _ ih => exact hperm _ _ ((sortNotes_perm lc _).map Note.id) ih
  | @save s title content now _ ih =>
    unfold saveActiveFromUI
    split
    · exact ih
    · simp only [persist]
      rw [mutateFirst_map_id _ _ ?_]
      · exact ih
      · intro _; rfl
  | @delete s ok _ ih =>
    unfold deleteActive
    split
    · exact ih
    · split
      · exact ih
      · refine hperm _ _ ((sortNotes_perm lc _).map Note.id) ?_
        exact hsub _ _ ((List.filter_sublist _).map Note.id) ih
  | search term _ ih => exact ih
  | edit _ ih => exact ih
  | @fire s title content now _ ih =>
    unfold timerFires
    split
    · exact ih
    · unfold saveActiveFromUI
      split
      · exact ih
      · simp only [persist]
        rw [mutateFirst_map_id _ _ ?_]
        · exact ih
        · intro _; rfl

/-! ## Invariants of the reachable states -/

theorem reachable_ids_nodup {lc : Compare} {stored : Stored} {s : State}
    (hstored : ((storedNotes stored).map Note.id).Nodup) (h : Reachable lc stored s) :
    (s.notes.map Note.id).Nodup := by
  refine reachable_ids List.Nodup (fun _ _ hp h' => hp.nodup_iff.mpr h')
    (fun _ _ hs h' => hs.nodup h') (fun i l hi hl => List.nodup_cons.mpr ⟨hi, hl⟩) ?_ h
  intro id t1 t2
  refine ((boot_notes_perm lc stored id t1 t2).map Note.id).nodup_iff.mpr ?_
  split
  · simp
  · exact hstored

theorem reachable_ids_present {lc : Compare} {stored : Stored} {s : State}
    (hstored : ∀ n ∈ storedNotes stored, n.id ≠ none) (h : Reachable lc stored s) :
    ∀ n ∈ s.notes, n.id ≠ none := by
  have key : ∀ x ∈ s.notes.map Note.id, x ≠ none := by
    refine reachable_ids (fun l => ∀ x ∈ l, x ≠ none) (fun _ _ hp h' x hx => h' x (hp.mem_iff.mp hx))
      (fun _ _ hs h' x hx => h' x (hs.subset hx)) ?_ ?_ h
    · intro i l _ hl x hx
      rcases List.mem_cons.mp hx with e | e
      · simp [e]
      · exact hl x e
    · intro id t1 t2 x hx
      have hx2 := ((boot_notes_perm lc stored id t1 t2).map Note.id).mem_iff.mp hx
      split at hx2
      · simp [welcomeNote] at hx2
        simp [hx2]
      · obtain ⟨n, hn, rfl⟩ := List.mem_map.mp hx2
        exact hstored n hn
  intro n hn
  exact key _ (List.mem_map_of_mem Note.id hn)

/-! ## C5 and C1: note ids, `deleteActive` -/

/-- C5, as amended: when the note ids of the stored record are pairwise distinct (as they
are when nothing is stored) and every `uid()` is new to the collection, the note ids of
the collection are pairwise distinct after the boot block and after each operation,
whatever `localeCompare` is. -/
theorem ids_pairwise_distinct (lc : Compare) (stored : Stored) (s : State)
    (hstored : ((storedNotes stored).map Note.id).Nodup) (h : Reachable lc stored s) :
    (s.notes.map Note.id).Pairwise (fun a b => a ≠ b) :=
  reachable_ids_nodup hstored h

/-- C5, witness: the run boot on an empty storage, `createNote`, `setActive`,
`saveActiveFromUI` ends with two notes of distinct ids. -/
theorem ids_pairwise_distinct_witness :
    ((storedNotes Stored.missing).map Note.id).Nodup ∧
      Reachable isoCompare Stored.missing sample3 ∧
      (sample3.notes.map Note.id).Pairwise (fun a b => a ≠ b) :=
  have hr : Reachable isoCompare Stored.missing sample3 :=
    Reachable.save _ _ _ (Reachable.select _ (Reachable.create _ _ _ (Reachable.init _ _ _)
      (by decide)))
  ⟨by decide, hr, ids_pairwise_distinct isoCompare Stored.missing sample3 (by decide) hr⟩

/-- C5, counterexample: after the boot block on a stored record in which two notes carry
the id "a", the collection holds two notes with the same id. -/
theorem ids_not_distinct_after_load :
    Reachable isoCompare dupStored dupState ∧
      ¬ (dupState.notes.map Note.id).Pairwise (fun a b => a ≠ b) :=
  ⟨Reachable.init _ _ _, by decide⟩

/-- C1, as amended: let `localeCompare` be a consistent comparator. In every state reachable
from the boot block on a stored record whose notes have string properties and carry
pairwise distinct ids, with every `uid()` new to the collection, a confirmed `deleteActive`
with an active note removes exactly that note, keeps the others in their order, persists
once, and sets `activeId` to the id of a remaining note that no remaining note precedes in
the order of the sort (`localeCompare` on `updatedAt`, an absent one read as the empty
string), or to `null` when no note remains; on a one-note collection it leaves the
collection empty and `activeId` null. -/
theorem deleteActive_removes_active (lc : Compare) (stored : Stored) (s : State) (n : Note)
    (hlc : Collates lc)
    (hpresent : ∀ m ∈ storedNotes stored, m.id ≠ none)
    (hdistinct : ((storedNotes stored).map Note.id).Nodup)
    (hreach : Reachable lc stored s) (hactive : getActiveNote s = some n) :
    n ∈ s.notes ∧
    (deleteActive lc s true).notes = s.notes.erase n ∧
    (deleteActive lc s true).writes = s.writes + 1 ∧
    (deleteActive lc s true).storage =
      serialize (deleteActive lc s true).notes (deleteActive lc s true).activeId ∧
    (((deleteActive lc s true).notes = [] ∧ (deleteActive lc s true).activeId = IdVal.null) ∨
      ∃ m i, m ∈ (deleteActive lc s true).notes ∧ m.id = some i ∧
        (deleteActive lc s true).activeId = IdVal.str i ∧
        ∀ k ∈ (deleteActive lc s true).notes, lc (updatedKey k) (updatedKey m) ≤ 0) ∧
    (s.notes.length = 1 →
      (deleteActive lc s true).notes = [] ∧ (deleteActive lc s true).activeId = IdVal.null) := by
  obtain ⟨hmem, hid⟩ := getActiveNote_some hactive
  have hnd := reachable_ids_nodup hdistinct hreach
  have hpr := reachable_ids_present hpresent hreach
  have hfilter : s.notes.filter (fun m => decide (m.id ≠ n.id)) = s.notes.erase n :=
    filter_ne_id_eq_erase s.notes n hnd hmem
  have hsorted : (s.notes.erase n).Sorted (newerEq lc) := by
    rw [← hfilter, filter_ne_id_eq s.activeId n hid]
    exact reachable_rest_sorted hlc hreach
  have hnotes : (deleteActive lc s true).notes = s.notes.erase n := by
    simp only [deleteActive, hactive, render, persist, hfilter]
    exact sortNotes_eq_self hsorted
  have hact : (deleteActive lc s true).activeId = firstId (s.notes.erase n) := by
    simp only [deleteActive, hactive, render, persist, hfilter]
    rfl
  have hwrites : (deleteActive lc s true).writes = s.writes + 1 := by
    simp only [deleteActive, hactive, render, persist]
    rfl
  have hstorage : (deleteActive lc s true).storage = serialize (s.notes.erase n)
      (firstId (s.notes.erase n)) := by
    simp only [deleteActive, hactive, render, persist, hfilter]
    rfl
  refine ⟨hmem, hnotes, hwrites, ?_, ?_, ?_⟩
  · rw [hstorage, hnotes, hact]
  · rw [hnotes, hact]
    cases hrest : s.notes.erase n with
    | nil => exact Or.inl ⟨rfl, rfl⟩
    | cons m rest =>
      right
      have hm : m ∈ s.notes := List.mem_of_mem_erase (hrest ▸ List.mem_cons_self m rest)
      obtain ⟨i, hi⟩ := Option.ne_none_iff_exists'.mp (hpr m hm)
      refine ⟨m, i, List.mem_cons_self m rest, hi, by simp [firstId, hi], ?_⟩
      intro k hk
      rcases List.mem_cons.mp hk with e | e
      · rw [e]; exact newerEq_refl hlc m
      · rw [hrest] at hsorted
        exact List.rel_of_sorted_cons hsorted k e
  · intro hlen
    rw [hnotes, hact]
    have : s.notes.erase n = [] := by
      apply List.eq_nil_of_length_eq_zero
      rw [List.length_erase_of_mem hmem, hlen]
    rw [this]
    exact ⟨rfl, rfl⟩

/-- C1, counterexample: after the boot block on a stored record in which two notes carry
the id "a", the active note is the first of them; a confirmed `deleteActive` removes both
notes with that id, not the active note alone. -/
theorem deleteActive_removes_two :
    Reachable isoCompare dupStored dupState ∧ getActiveNote dupState = some dupA1 ∧
      dupState.notes = [dupA1, dupA2, dupB] ∧
      dupState.notes.erase dupA1 = [dupA2, dupB] ∧
      (deleteActive isoCompare dupState true).notes = [dupB] :=
  ⟨Reachable.init _ _ _, by decide, by decide, by decide, by decide⟩

/-- C1, witness: after boot on an empty storage, `createNote`, `setActive` and
`saveActiveFromUI`, a confirmed `deleteActive` removes the active note alone. -/
theorem deleteActive_removes_active_witness :
    Collates isoCompare ∧
      (∀ m ∈ storedNotes Stored.missing, m.id ≠ none) ∧
      ((storedNotes Stored.missing).map Note.id).Nodup ∧
      Reachable isoCompare Stored.missing sample3 ∧
      getActiveNote sample3 = some
        { id := some "n_1", title := some "Bem-vindo", content := some "oi",
          createdAt := some "2026-01-01T10:00:00.000Z",
          updatedAt := some "2026-01-01T10:06:00.000Z" } ∧
      (deleteActive isoCompare sample3 true).notes = sample3.notes.erase
        { id := some "n_1", title := some "Bem-vindo", content := some "oi",
          createdAt := some "2026-01-01T10:00:00.000Z",
          updatedAt := some "2026-01-01T10:06:00.000Z" } :=
  have hr : Reachable isoCompare Stored.missing sample3 :=
    Reachable.save _ _ _ (Reachable.select _ (Reachable.create _ _ _ (Reachable.init _ _ _)
      (by decide)))
  ⟨isoCompare_collates, by decide, by decide, hr, by decide,
    (deleteActive_removes_active isoCompare Stored.missing sample3 _ isoCompare_collates
      (by decide) (by decide) hr (by decide)).2.1⟩

/-! ## C2, C3, C4, C6: `setActive`, `renameActive`, `saveActiveFromUI` -/

theorem string_eq_empty_iff (s : String) : s = "" ↔ s.data = [] := by
  constructor
  · intro h; rw [h]
  · intro h
    cases s with
    | mk d => cases h; rfl

theorem string_length_eq_zero_iff (s : String) : s.length = 0 ↔ s = "" := by
  rw [string_eq_empty_iff]
  cases s with
  | mk d => exact List.length_eq_zero

theorem dropWhile_eq_nil_of_all (p : Char → Bool) :
    ∀ l : List Char, (∀ c ∈ l, p c = true) → l.dropWhile p = []
  | [], _ => rfl
  | c :: cs, h => by
    rw [List.dropWhile_cons, if_pos (h c (List.mem_cons_self c cs))]
    exact dropWhile_eq_nil_of_all p cs (fun d hd => h d (List.mem_cons_of_mem c hd))

theorem trim_blank (t : String) (h : ∀ c ∈ t.data, isTrimChar c = true) : trim t = "" := by
  rw [string_eq_empty_iff]
  simp [trim, trimChars, dropWhile_eq_nil_of_all isTrimChar t.data h]

theorem renamedTitle_of_ne (t : String) (h : trim t ≠ "") : renamedTitle t = trim t := by
  have : (trim t).length ≠ 0 := fun e => h ((string_length_eq_zero_iff _).mp e)
  simp [renamedTitle, this]

theorem renamedTitle_of_eq (t : String) (h : trim t = "") : renamedTitle t = placeholder := by
  simp [renamedTitle, h]

theorem placeholder_ne_empty : placeholder ≠ "" := by decide

theorem mem_set_of_getElem? {l : List Note} {k : Nat} {n m : Note} (h : l[k]? = some n) :
    m ∈ l.set k m := by
  have hk : k < l.length := (List.getElem?_eq_some_iff.mp h).1
  rw [List.mem_iff_getElem]
  exact ⟨k, by simpa using hk, by simp⟩

theorem find_mutateFirst (p : Note → Bool) (f : Note → Note) (hf : ∀ n, p (f n) = p n) :
    ∀ (l : List Note) (n : Note), l.find? p = some n →
      (mutateFirst p f l).find? p = some (f n)
  | [], n => by simp
  | m :: ms, n => by
    intro h
    by_cases hp : p m = true
    · simp [List.find?, hp] at h
      subst h
      simp [mutateFirst, hp, hf]
    · simp [List.find?, hp] at h
      simp [mutateFirst, hp, find_mutateFirst p f hf ms n h]

/-- C2, counterexample: in the state after boot on an empty storage no note has the id
"zzz", yet `setActive("zzz")` changes `activeId` and writes to the storage. -/
theorem setActive_unknown_id_changes_state :
    (∀ n ∈ sample0.notes, n.idVal ≠ IdVal.str "zzz") ∧
      (setActive isoCompare sample0 (IdVal.str "zzz")).activeId = IdVal.str "zzz" ∧
      (setActive isoCompare sample0 (IdVal.str "zzz")).activeId ≠ sample0.activeId ∧
      (setActive isoCompare sample0 (IdVal.str "zzz")).writes = sample0.writes + 1 ∧
      (setActive isoCompare sample0 (IdVal.str "zzz")).storage ≠ sample0.storage := by
  decide

/-- C2, as amended: for every state and every id, whether or not a note carries it,
`setActive(id)` sets `activeId` to that id and persists exactly once; the collection keeps
its notes, put in order by the render that follows. -/
theorem setActive_sets_and_persists (lc : Compare) (s : State) (id : IdVal) :
    (setActive lc s id).activeId = id ∧
      (setActive lc s id).writes = s.writes + 1 ∧
      (setActive lc s id).storage = serialize s.notes id ∧
      (setActive lc s id).notes = sortNotes lc s.notes ∧
      (setActive lc s id).notes.Perm s.notes ∧
      (setActive lc s id).search = s.search ∧
      (setActive lc s id).saveTimer = s.saveTimer :=
  ⟨rfl, rfl, rfl, rfl, sortNotes_perm lc s.notes, rfl, rfl⟩

/-- C3: with an active note `n`, an aborted prompt (`null`) leaves the whole state, the
stored record and the count of writes included, as it was; an answered prompt stores the
trimmed answer as the title of `n` when that is not empty and the placeholder when the
answer is empty or all white space, so never an empty title, stamps `updatedAt`, keeps
`activeId` and persists once. -/
theorem renameActive_spec (lc : Compare) (s : State) (n : Note) (now : String)
    (hactive : getActiveNote s = some n) :
    renameActive lc s none now = s ∧
    ∀ t : String,
      (trim t ≠ "" → renamedTitle t = trim t) ∧
      (trim t = "" → renamedTitle t = placeholder) ∧
      ((∀ c ∈ t.data, isTrimChar c = true) → renamedTitle t = placeholder) ∧
      renamedTitle t ≠ "" ∧
      (renameActive lc s (some t) now).activeId = s.activeId ∧
      (renameActive lc s (some t) now).writes = s.writes + 1 ∧
      { n with title := some (renamedTitle t), updatedAt := some now } ∈
        (renameActive lc s (some t) now).notes ∧
      ∃ k, s.notes[k]? = some n ∧
        (renameActive lc s (some t) now).notes = sortNotes lc
          (s.notes.set k { n with title := some (renamedTitle t), updatedAt := some now }) ∧
        (renameActive lc s (some t) now).storage = serialize
          (s.notes.set k { n with title := some (renamedTitle t), updatedAt := some now })
          s.activeId := by
  refine ⟨by simp [renameActive, hactive], ?_⟩
  intro t
  have hne : renamedTitle t ≠ "" := by
    by_cases h : trim t = ""
    · rw [renamedTitle_of_eq t h]; exact placeholder_ne_empty
    · rw [renamedTitle_of_ne t h]; exact h
  obtain ⟨k, hk, hset⟩ := mutateFirst_eq_set (isActive s.activeId)
    (fun m => { m with title := some (renamedTitle t), updatedAt := some now }) s.notes n hactive
  have hnotes : (renameActive lc s (some t) now).notes = sortNotes lc
      (s.notes.set k { n with title := some (renamedTitle t), updatedAt := some now }) := by
    simp only [renameActive, hactive, render, persist, hset]
  refine ⟨renamedTitle_of_ne t, renamedTitle_of_eq t,
    fun h => renamedTitle_of_eq t (trim_blank t h), hne, ?_, ?_, ?_, k, hk, hnotes, ?_⟩
  · simp only [renameActive, hactive, render, persist]
  · simp only [renameActive, hactive, render, persist]
  · rw [hnotes, mem_sortNotes]
    exact mem_set_of_getElem? hk
  · simp only [renameActive, hactive, render, persist, hset]

/-- C3, witness: after boot on an empty storage the initial note is active; an aborted
prompt changes nothing and an answer of three blanks gives the placeholder. -/
theorem renameActive_spec_witness :
    getActiveNote sample0 = some (welcomeNote "n_1" "2026-01-01T10:00:00.000Z"
        "2026-01-01T10:00:00.000Z") ∧
      renameActive isoCompare sample0 none "2026-01-01T10:01:00.000Z" = sample0 ∧
      renamedTitle "   " = placeholder :=
  have h := renameActive_spec isoCompare sample0 _ "2026-01-01T10:01:00.000Z"
    (show getActiveNote sample0 = some (welcomeNote "n_1" "2026-01-01T10:00:00.000Z"
        "2026-01-01T10:00:00.000Z") by decide)
  ⟨by decide, h.1, (h.2 "   ").2.2.1 (by decide)⟩

/-- C4: `saveActiveFromUI` keeps `activeId`, the search term and the timer, the sequence of
note ids and every `createdAt`; without an active note it returns the state as it was,
with no write; with an active note `n` at position `k` it replaces that one element by `n`
with the title trimmed (the placeholder when that is empty), the content as given and
`updatedAt` set to the current time, leaves every other position as it was, and persists
once. -/
theorem saveActiveFromUI_frame (s : State) (title content now : String) :
    (saveActiveFromUI s title content now).activeId = s.activeId ∧
    (saveActiveFromUI s title content now).search = s.search ∧
    (saveActiveFromUI s title content now).saveTimer = s.saveTimer ∧
    (saveActiveFromUI s title content now).notes.map Note.id = s.notes.map Note.id ∧
    (saveActiveFromUI s title content now).notes.map Note.createdAt =
      s.notes.map Note.createdAt ∧
    (trim title ≠ "" → savedTitle title = trim title) ∧
    (trim title = "" → savedTitle title = placeholder) ∧
    (getActiveNote s = none → saveActiveFromUI s title content now = s) ∧
    (∀ n, getActiveNote s = some n →
      ∃ k, s.notes[k]? = some n ∧
        (saveActiveFromUI s title content now).notes = s.notes.set k
          { n with title := some (savedTitle title), content := some content,
                   updatedAt := some now } ∧
        (∀ j, j ≠ k → (saveActiveFromUI s title content now).notes[j]? = s.notes[j]?) ∧
        (saveActiveFromUI s title content now).writes = s.writes + 1 ∧
        (saveActiveFromUI s title content now).storage =
          serialize (saveActiveFromUI s title content now).notes s.activeId) := by
  refine ⟨?_, ?_, ?_, ?_, ?_, ?_, ?_, ?_, ?_⟩
  · unfold saveActiveFromUI; split <;> rfl
  · unfold saveActiveFromUI; split <;> rfl
  · unfold saveActiveFromUI; split <;> rfl
  · unfold saveActiveFromUI
    split
    · rfl
    · simp only [persist]
      rw [mutateFirst_map_id _ _ ?_]
      intro _; rfl
  · unfold saveActiveFromUI
    split
    · rfl
    · simp only [persist]
      rw [mutateFirst_map_createdAt _ _ ?_]
      intro _; rfl
  · intro h; simp [savedTitle, h]
  · intro h; simp [savedTitle, h]
  · intro h; simp [saveActiveFromUI, h]
  · intro n hn
    obtain ⟨k, hk, hset⟩ := mutateFirst_eq_set (isActive s.activeId)
      (fun m => { m with title := some (savedTitle title), content := some content,
                         updatedAt := some now }) s.notes n hn
    have hnotes : (saveActiveFromUI s title content now).notes = s.notes.set k
        { n with title := some (savedTitle title), content := some content,
                 updatedAt := some now } := by
      simp only [saveActiveFromUI, hn, persist, hset]
    refine ⟨k, hk, hnotes, ?_, ?_, ?_⟩
    · intro j hj
      rw [hnotes, List.getElem?_set_ne (Ne.symm hj)]
    · simp only [saveActiveFromUI, hn, persist]
    · simp only [saveActiveFromUI, hn, persist]

/-- C4, witness: in the state of two notes with the first one active, a save replaces the
active note alone, at its position. -/
theorem saveActiveFromUI_frame_witness :
    getActiveNote sample2 = some (welcomeNote "n_1" "2026-01-01T10:00:00.000Z"
        "2026-01-01T10:00:00.000Z") ∧
      ∃ k, sample2.notes[k]? = some (welcomeNote "n_1" "2026-01-01T10:00:00.000Z"
          "2026-01-01T10:00:00.000Z") ∧
        (saveActiveFromUI sample2 " Lista " "oi" "2026-01-01T10:06:00.000Z").notes =
          sample2.notes.set k
            { welcomeNote "n_1" "2026-01-01T10:00:00.000Z" "2026-01-01T10:00:00.000Z" with
              title := some (savedTitle " Lista "), content := some "oi",
              updatedAt := some "2026-01-01T10:06:00.000Z" } :=
  have h := (saveActiveFromUI_frame sample2 " Lista " "oi" "2026-01-01T10:06:00.000Z").2.2.2.2.2.2.2.2
    (welcomeNote "n_1" "2026-01-01T10:00:00.000Z" "2026-01-01T10:00:00.000Z") (by decide)
  ⟨by decide, h.imp (fun _ hk => ⟨hk.1, hk.2.1⟩)⟩

/-- C6, failing run: boot on an empty storage, `createNote`, a click on the first note,
then an edit of it saved by `saveActiveFromUI`. With an empty search term `renderList`
lists all notes, the older note first: the list is not ordered by `updatedAt` descending. -/
theorem renderList_unsorted_after_save :
    Reachable isoCompare Stored.missing sample3 ∧ sample3.search = "" ∧
      renderList asciiLower sample3 = sample3.notes ∧
      (renderList asciiLower sample3).map updatedKey =
        ["2026-01-01T10:05:00.001Z", "2026-01-01T10:06:00.000Z"] ∧
      ¬ (renderList asciiLower sample3).Sorted (newerEq isoCompare) :=
  ⟨Reachable.save _ _ _ (Reachable.select _ (Reachable.create _ _ _ (Reachable.init _ _ _)
      (by decide))), by decide, by decide, by decide, by decide⟩

/-! ## C7: the filter of `renderList` -/

theorem startsWith_iff : ∀ (h t : List Char), startsWith h t = true ↔ ∃ q, h = t ++ q
  | h, [] => by simp [startsWith]
  | [], t :: ts => by simp [startsWith]
  | h :: hs, t :: ts => by
    simp only [startsWith, Bool.and_eq_true, decide_eq_true_eq, startsWith_iff hs ts,
      List.cons_append, List.cons.injEq]
    constructor
    · rintro ⟨e, q, hq⟩
      exact ⟨q, e, hq⟩
    · rintro ⟨q, e, hq⟩
      exact ⟨e, q, hq⟩

theorem includesChars_iff : ∀ (h t : List Char),
    includesChars h t = true ↔ ∃ p q, h = p ++ t ++ q
  | [], t => by
    simp only [includesChars, startsWith_iff]
    constructor
    · rintro ⟨q, hq⟩
      exact ⟨[], q, by simpa using hq⟩
    · rintro ⟨p, q, hq⟩
      have h1 : p ++ t ++ q = [] := hq.symm
      simp only [List.append_eq_nil] at h1
      exact ⟨[], by simp [h1.1.2]⟩
  | c :: cs, t => by
    simp only [includesChars, Bool.or_eq_true, startsWith_iff, includesChars_iff cs t]
    constructor
    · rintro (⟨q, hq⟩ | ⟨p, q, hq⟩)
      · exact ⟨[], q, by simpa using hq⟩
      · exact ⟨c :: p, q, by simp [hq]⟩
    · rintro ⟨p, q, hq⟩
      cases p with
      | nil => exact Or.inl ⟨q, by simpa using hq⟩
      | cons d p =>
        simp only [List.cons_append, List.cons.injEq] at hq
        exact Or.inr ⟨p, q, hq.2⟩

theorem keeps_iff (lower : Lower) (term : String) (n : Note) :
    keeps lower term n = true ↔
      term = "" ∨ ∃ p q, (haystack lower n).data = p ++ term.data ++ q := by
  unfold keeps
  split
  · simp [*]
  · rename_i h
    simp [h, includes, includesChars_iff]

/-- C7, counterexample: a note with the title "a" and the content "b" and the search
term "a", line feed, "b". The term occurs neither in the title nor in the content, yet
the filter of `renderList` keeps the note. -/
theorem keeps_across_fields :
    keeps asciiLower (searchTerm asciiLower "a\nb") noteAB = true ∧
      keepsPerField asciiLower (searchTerm asciiLower "a\nb") noteAB = false ∧
      renderList asciiLower (searching "a\nb") = [noteAB] := by
  decide

/-- C7, as amended: whatever `toLowerCase` is, the filter of `renderList` keeps a note if
and only if the trimmed, lower-cased term is empty or occurs as a contiguous block in the
lower-cased text made of the title, a line feed and the content (an absent title or
content reads "undefined"). The notes listed are the kept notes of the collection, in the
order of the collection. -/
theorem renderList_filter (lower : Lower) (s : State) :
    (renderList lower s).Sublist s.notes ∧
    renderList lower s = s.notes.filter (keeps lower (lower (trim s.search))) ∧
    (∀ n, n ∈ renderList lower s ↔ n ∈ s.notes ∧ keeps lower (lower (trim s.search)) n = true) ∧
    (∀ n, keeps lower (lower (trim s.search)) n = true ↔
      lower (trim s.search) = "" ∨
      ∃ p q, (lower (interpolate n.title ++ "\n" ++ interpolate n.content)).data =
        p ++ (lower (trim s.search)).data ++ q) :=
  ⟨List.filter_sublist _, rfl, fun _ => List.mem_filter, fun n => keeps_iff lower _ n⟩

/-- C7, witness: with the term " B " the filter keeps the note with the title "a" and the
content "b", and with the term "c" it does not. -/
theorem renderList_filter_witness :
    renderList asciiLower (searching " B ") = [noteAB] ∧
      renderList asciiLower (searching "c") = [] ∧
      (keeps asciiLower (asciiLower (trim " B ")) noteAB = true ↔
        asciiLower (trim " B ") = "" ∨
        ∃ p q, (asciiLower (interpolate noteAB.title ++ "\n" ++
          interpolate noteAB.content)).data = p ++ (asciiLower (trim " B ")).data ++ q) :=
  ⟨by decide, by decide, (renderList_filter asciiLower (searching " B ")).2.2.2 noteAB⟩

/-! ## C8: the save shortcut and the timer -/

theorem getActiveNote_saveActiveFromUI (s : State) (title content now : String) (n : Note)
    (h : getActiveNote s = some n) :
    getActiveNote (saveActiveFromUI s title content now) =
      some { n with title := some (savedTitle title), content := some content,
                    updatedAt := some now } := by
  have h2 : List.find? (isActive s.activeId) s.notes = some n := h
  have hfind := find_mutateFirst (isActive s.activeId)
    (fun m => { m with title := some (savedTitle title), content := some content,
                       updatedAt := some now })
    (fun _ => rfl) s.notes n h2
  simp only [saveActiveFromUI, getActiveNote, h2, persist]
  exact hfind

theorem saveActiveFromUI_writes (s : State) (title content now : String) (n : Note)
    (h : getActiveNote s = some n) :
    (saveActiveFromUI s title content now).writes = s.writes + 1 := by
  simp only [saveActiveFromUI, h, persist]

theorem saveActiveFromUI_saveTimer (s : State) (title content now : String) :
    (saveActiveFromUI s title content now).saveTimer = s.saveTimer := by
  unfold saveActiveFromUI; split <;> rfl

theorem timerFires_pending (s : State) (title content now : String) (n : Note)
    (hp : s.saveTimer = Timer.pending) (hn : getActiveNote s = some n) :
    (timerFires s title content now).writes = s.writes + 1 ∧
      (timerFires s title content now).saveTimer = Timer.idle := by
  simp only [timerFires, hp]
  exact ⟨saveActiveFromUI_writes { s with saveTimer := Timer.idle } title content now n hn,
    saveActiveFromUI_saveTimer { s with saveTimer := Timer.idle } title content now⟩

/-- C8, counterexample: with the autosave timer armed, the save shortcut commits and the
timer is still armed; when it expires a second commit is written, with no edit between. -/
theorem saveNow_leaves_timer_armed :
    samplePending.saveTimer = Timer.pending ∧
      (saveNow samplePending "Bem-vindo" "oi" "2026-01-01T10:06:00.000Z").writes =
        samplePending.writes + 1 ∧
      (saveNow samplePending "Bem-vindo" "oi" "2026-01-01T10:06:00.000Z").saveTimer =
        Timer.pending ∧
      (timerFires (saveNow samplePending "Bem-vindo" "oi" "2026-01-01T10:06:00.000Z")
        "Bem-vindo" "oi" "2026-01-01T10:06:00.200Z").writes = samplePending.writes + 2 := by
  decide

/-- C8, as amended: the save shortcut runs `saveActiveFromUI` at once, which persists once
when there is an active note, and leaves the timer as it was: a commit that was scheduled
stays scheduled, and when its timer expires it runs `saveActiveFromUI` again, a second
write; only then is the timer idle. -/
theorem saveNow_commits_and_keeps_timer (s : State) (title content now : String) :
    saveNow s title content now = saveActiveFromUI s title content now ∧
    (saveNow s title content now).saveTimer = s.saveTimer ∧
    (∀ n, getActiveNote s = some n → (saveNow s title content now).writes = s.writes + 1) ∧
    (s.saveTimer = Timer.pending → ∀ n, getActiveNote s = some n →
      ∀ title2 content2 now2 : String,
        (timerFires (saveNow s title content now) title2 content2 now2).writes = s.writes + 2 ∧
        (timerFires (saveNow s title content now) title2 content2 now2).saveTimer =
          Timer.idle) := by
  refine ⟨rfl, saveActiveFromUI_saveTimer s title content now,
    fun n hn => saveActiveFromUI_writes s title content now n hn, ?_⟩
  intro hp n hn title2 content2 now2
  have hact := getActiveNote_saveActiveFromUI s title content now n hn
  have hpend : (saveActiveFromUI s title content now).saveTimer = Timer.pending := by
    rw [saveActiveFromUI_saveTimer, hp]
  have hfire := timerFires_pending (saveActiveFromUI s title content now) title2 content2 now2
    _ hpend hact
  rw [saveActiveFromUI_writes s title content now n hn] at hfire
  exact hfire

/-- C8, witness: with the timer armed after boot, the save shortcut and the expiry of the
timer make two writes. -/
theorem saveNow_commits_and_keeps_timer_witness :
    samplePending.saveTimer = Timer.pending ∧
      (timerFires (saveNow samplePending "Bem-vindo" "oi" "2026-01-01T10:06:00.000Z")
        "Bem-vindo" "oi!" "2026-01-01T10:06:00.200Z").writes = samplePending.writes + 2 :=
  ⟨by decide,
    ((saveNow_commits_and_keeps_timer samplePending "Bem-vindo" "oi"
      "2026-01-01T10:06:00.000Z").2.2.2 (by decide)
      (welcomeNote "n_1" "2026-01-01T10:00:00.000Z" "2026-01-01T10:00:00.000Z") (by decide)
      "Bem-vindo" "oi!" "2026-01-01T10:06:00.200Z").1⟩

/-! ## C9: the boot block -/

/-- C9, counterexample: the stored record holds one note with a title and no other
property, so it does not parse into the shape of the persistence format; the boot block
keeps that note, seeds nothing, sets no active id and writes nothing. -/
theorem boot_keeps_misshaped_notes :
    wellShaped bareStored = false ∧
      (boot isoCompare bareStored "n_1" "2026-01-01T10:00:00.000Z" "2026-01-01T10:00:00.000Z").notes.map
        Note.title = [some "x"] ∧
      (boot isoCompare bareStored "n_1" "2026-01-01T10:00:00.000Z" "2026-01-01T10:00:00.000Z").activeId =
        IdVal.null ∧
      (boot isoCompare bareStored "n_1" "2026-01-01T10:00:00.000Z" "2026-01-01T10:00:00.000Z").writes = 0 := by
  decide

/-- C9, as amended: when the storage is empty or absent, holds a text that is not JSON, or
holds a value whose `notes` property is not a non-empty array, the boot block ends with
exactly one note, titled "Bem-vindo", with `activeId` the id of that note, and this state
is what it has written to the storage, in one write. -/
theorem boot_seeds_welcome (lc : Compare) (stored : Stored) (id t1 t2 : String)
    (hempty : storedNotes stored = []) :
    (boot lc stored id t1 t2).notes = [welcomeNote id t1 t2] ∧
      (welcomeNote id t1 t2).title = some "Bem-vindo" ∧
      (welcomeNote id t1 t2).id = some id ∧
      (boot lc stored id t1 t2).activeId = IdVal.str id ∧
      (boot lc stored id t1 t2).storage = serialize [welcomeNote id t1 t2] (IdVal.str id) ∧
      (boot lc stored id t1 t2).writes = 1 := by
  have hload : (load (initial stored)).notes = [] := by
    cases stored with
    | missing => rfl
    | garbage => rfl
    | value notes activeId =>
      cases notes with
      | absent => cases activeId <;> rfl
      | other => cases activeId <;> rfl
      | ok ns =>
        have : ns = [] := hempty
        subst this
        cases activeId <;> rfl
  have hwrites : (load (initial stored)).writes = 0 := by
    cases stored with
    | missing => rfl
    | garbage => rfl
    | value notes activeId => cases notes <;> cases activeId <;> rfl
  simp [boot, seed, hload, hwrites, render, persist, sortNotes, welcomeNote, firstNoteId,
    Note.idVal]

/-- C9, witness: on a stored text that is not JSON the boot block seeds the initial note. -/
theorem boot_seeds_welcome_witness :
    storedNotes Stored.garbage = [] ∧
      (boot isoCompare Stored.garbage "n_1" "2026-01-01T10:00:00.000Z" "2026-01-01T10:00:00.000Z").notes =
        [welcomeNote "n_1" "2026-01-01T10:00:00.000Z" "2026-01-01T10:00:00.000Z"] :=
  ⟨rfl, (boot_seeds_welcome isoCompare Stored.garbage "n_1" "2026-01-01T10:00:00.000Z"
    "2026-01-01T10:00:00.000Z" rfl).1⟩

/-! ## C10: `sortNotes` -/

/-- C10: for a consistent `localeCompare` and every note list `xs`, `sortNotes` is
idempotent, `sort(sort(xs)) = sort(xs)`, where the sort is the stable sort by `updatedAt`
descending with a missing or empty `updatedAt` compared as the empty string: its result
holds the notes of `xs`, each as often as `xs`, no note stands before one that the
comparator puts first, and notes already in order keep their relative order. -/
theorem sortNotes_idempotent (lc : Compare) (hlc : Collates lc) (xs : List Note) :
    sortNotes lc (sortNotes lc xs) = sortNotes lc xs ∧
    (sortNotes lc xs).Perm xs ∧
    (sortNotes lc xs).Pairwise (fun a b => lc (updatedKey b) (updatedKey a) ≤ 0) ∧
    (∀ c : List Note, c.Pairwise (fun a b => lc (updatedKey b) (updatedKey a) ≤ 0) →
      c.Sublist xs → c.Sublist (sortNotes lc xs)) ∧
    (∀ n : Note, n.updatedAt = none ∨ n.updatedAt = some "" → updatedKey n = "") :=
  ⟨sortNotes_eq_self (sortNotes_sorted hlc xs), sortNotes_perm lc xs, sortNotes_sorted hlc xs,
    fun _ hr hc => sortNotes_stable hr hc,
    fun n h => by
      rcases h with h | h
      · simp [updatedKey, h]
      · simp [updatedKey, h]⟩

/-- C10, witness: three notes stored oldest first are put most recent first, and sorting
again changes nothing. -/
theorem sortNotes_idempotent_witness :
    Collates isoCompare ∧
      sortNotes isoCompare [dupB, dupA2, dupA1] = [dupA1, dupA2, dupB] ∧
      sortNotes isoCompare (sortNotes isoCompare [dupB, dupA2, dupA1]) =
        sortNotes isoCompare [dupB, dupA2, dupA1] :=
  ⟨isoCompare_collates, by decide,
    (sortNotes_idempotent isoCompare isoCompare_collates [dupB, dupA2, dupA1]).1⟩

end MeuBloco
